import Mathlib

/-!
Verification of the gcodeopt repository (gcodeopt.py and cvrp.py) against its
natural-language specification.

The two source files are shallowly embedded below.  Gcode coordinates (Python
floats parsed from decimal text) are idealized as exact rationals; the float
`math.sqrt` followed by `int(...)` truncation is modelled as the exact integer
square root of a nonnegative rational (`ratSqrtFloor`), which is proved equal
to the natural floor of the real square root (`ratSqrtFloor_eq_floor_sqrt`).

The route optimizer itself is the external OR-Tools library, not part of this
repository: routes returned by the solver are modelled abstractly as node
sequences satisfying the constraints that cvrp.py registers
(`SatisfiesDisjunctions`).
-/

namespace Gcodeopt

/-- A gcode motion line, reduced to the data the segment endpoints code
reads: the optional x and y coordinates (`line.x`, `line.y` in gcoder,
`None` when the line carries no such coordinate). -/
structure GLine where
  x : Option ℚ
  y : Option ℚ
deriving DecidableEq, Repr

/-- A segment: a maximal run of gcode lines between G00 moves
(gcodeopt.py, class `Segment`), holding its list of lines. -/
structure Segment where
  lines : List GLine
deriving DecidableEq, Repr

/-- The scanning loop shared by `Segment._startpos` and `Segment._endpos`
(gcodeopt.py lines 39-59): walk the lines, remembering the first defined x
and the first defined y; as soon as both are defined return the pair,
otherwise fall off the loop returning none. -/
def scanPos : Option ℚ → Option ℚ → List GLine → Option (ℚ × ℚ)
  | _, _, [] => none
  | x, y, l :: ls =>
    match (if x.isSome then x else l.x), (if y.isSome then y else l.y) with
    | some a, some b => some (a, b)
    | x', y' => scanPos x' y' ls

/-- The startpos of a segment: `Segment._startpos`, the forward scan of its
lines (gcodeopt.py lines 39-48). -/
def Segment.startpos (s : Segment) : Option (ℚ × ℚ) :=
  scanPos none none s.lines

/-- The endpos of a segment: `Segment._endpos`, the scan over
`reversed(self.lines)` (gcodeopt.py lines 50-59). -/
def Segment.endpos (s : Segment) : Option (ℚ × ℚ) :=
  scanPos none none s.lines.reverse

/-- One directed traversal of a segment: the elements of the module-level
`segments` list of gcodeopt.py are either a `Segment` or a
`ReversedSegment` wrapping it (gcodeopt.py lines 62-76, 89-94). -/
inductive OrientedSegment where
  | fwd (s : Segment)
  | rev (s : Segment)
deriving DecidableEq, Repr

instance : Inhabited OrientedSegment := ⟨.fwd ⟨[]⟩⟩

/-- Lines of an oriented segment: `ReversedSegment.lines` returns
`reversed(self.segment.lines)` (gcodeopt.py lines 66-68). -/
def OrientedSegment.lines : OrientedSegment → List GLine
  | .fwd s => s.lines
  | .rev s => s.lines.reverse

/-- Startpos of an oriented segment: `ReversedSegment.startpos` returns
`self.segment.endpos` (gcodeopt.py lines 70-72). -/
def OrientedSegment.startpos : OrientedSegment → Option (ℚ × ℚ)
  | .fwd s => s.startpos
  | .rev s => s.endpos

/-- Endpos of an oriented segment: `ReversedSegment.endpos` returns
`self.segment.startpos` (gcodeopt.py lines 74-76). -/
def OrientedSegment.endpos : OrientedSegment → Option (ℚ × ℚ)
  | .fwd s => s.endpos
  | .rev s => s.startpos

/-- The module-level `segments` list of gcodeopt.py (lines 89-94): for each
part after the preamble, build the segment, and when both its startpos and
endpos are defined (a nonempty Python tuple is always truthy, so the
`if seg.startpos and seg.endpos` test is exactly definedness) append the
segment followed by its reversal; otherwise skip the part. -/
def segments : List (List GLine) → List OrientedSegment
  | [] => []
  | p :: ps =>
    if (Segment.mk p).startpos.isSome && (Segment.mk p).endpos.isSome then
      .fwd ⟨p⟩ :: .rev ⟨p⟩ :: segments ps
    else
      segments ps

/-- Squared Euclidean distance, the radicand of `gcodeopt.distance`
(gcodeopt.py lines 97-98). -/
def distSq (a b : ℚ × ℚ) : ℚ :=
  (a.1 - b.1) ^ 2 + (a.2 - b.2) ^ 2

/-- Integer square root of a nonnegative rational: the floor of its real
square root, computed through `Nat.sqrt`.  For q = a / b in lowest terms,
floor (sqrt (a / b)) = floor (sqrt (a * b) / b) = Nat.sqrt (a * b) / b. -/
def ratSqrtFloor (q : ℚ) : ℕ :=
  Nat.sqrt (q.num.toNat * q.den) / q.den

/-- The composite `int(gcodeopt.distance(a, b))` used by the matrix builder
(cvrp.py line 23): the truncated Euclidean distance between two points. -/
def intDistance (a b : ℚ × ℚ) : ℕ :=
  ratSqrtFloor (distSq a b)

/-- The view of a routing node that cvrp.py consumes: an object exposing a
defined `startpos` and `endpos` (create_data_model reads nothing else from
the entries of `gcodeopt.segments`; their definedness is guaranteed by the
filter in gcodeopt.py lines 92-94). -/
structure Node where
  startpos : ℚ × ℚ
  endpos : ℚ × ℚ
deriving DecidableEq, Repr

instance : Inhabited Node := ⟨⟨(0, 0), (0, 0)⟩⟩

/-- Project an oriented segment to the node view; the default point is never
read for the elements of `segments parts`, whose positions are all defined
(`segments_pos_isSome`). -/
def Node.ofOriented (o : OrientedSegment) : Node :=
  ⟨o.startpos.getD (0, 0), o.endpos.getD (0, 0)⟩

/-- The node universe fed to cvrp.py: the oriented segments under the node
view. -/
def nodes (parts : List (List GLine)) : List Node :=
  (segments parts).map Node.ofOriented

/-- The distance matrix loop of `create_data_model` (cvrp.py lines 13-24):
for each ordered pair of enumerated segments, 0 on the diagonal and the
truncated Euclidean distance from the endpos of the row segment to the
startpos of the column segment elsewhere. -/
def distance_matrix (segs : List Node) : List (List ℕ) :=
  segs.enum.map fun fs =>
    segs.enum.map fun ts =>
      if fs.1 = ts.1 then 0 else intDistance fs.2.endpos ts.2.startpos

/-- Entry (i, j) of a matrix stored as a list of rows (out-of-range defaults
are never hit at in-range indices). -/
def matEntry (m : List (List ℕ)) (i j : ℕ) : ℕ :=
  (m.getD i []).getD j 0

/-- The record returned by `create_data_model` (cvrp.py lines 10-28). -/
structure DataModel where
  distance_matrix : List (List ℕ)
  initial_routes : List (List ℕ)
  num_vehicles : ℕ
  depot : ℕ
deriving DecidableEq, Repr

/-- The full `create_data_model` (cvrp.py lines 10-28): the distance matrix,
one initial route `list(range(1, len(distance_matrix)))`, one vehicle, and
depot 0. -/
def create_data_model (segs : List Node) : DataModel :=
  let dm := distance_matrix segs
  { distance_matrix := dm
    initial_routes := [List.range' 1 (dm.length - 1)]
    num_vehicles := 1
    depot := 0 }

/-- The disjunction sets registered by `main` (cvrp.py lines 93-95): for
every even index i below the matrix size, the node pair [i, i + 1]
("forbid a path and its reversed twin from being followed at the same
time"). -/
def disjunctions (n : ℕ) : List (List ℕ) :=
  ((List.range n).filter (fun i => i % 2 == 0)).map (fun i => [i, i + 1])

/-- Modelled from the spec: the route solver is the external OR-Tools
library, absent from this repository's sources.  Its documented contract for
`AddDisjunction` is that a returned solution activates at most
`max_cardinality` (here 1) of the nodes of each registered disjunction, and,
when no drop penalty is supplied — cvrp.py line 95 passes only the node
pair, omitting the optional penalty argument — the disjunction is mandatory:
exactly one of its nodes is visited.  A solved route is therefore modelled
as a node sequence in which every registered pair has exactly one visited
member. -/
def SatisfiesDisjunctions (n : ℕ) (r : List ℕ) : Prop :=
  ∀ d ∈ disjunctions n, d.countP (fun v => decide (v ∈ r)) = 1

instance (n : ℕ) (r : List ℕ) : Decidable (SatisfiesDisjunctions n r) :=
  inferInstanceAs
    (Decidable (∀ d ∈ disjunctions n, d.countP (fun v => decide (v ∈ r)) = 1))

/-- The route walk of `print_solution` (cvrp.py lines 31-52), over the index
sequence the solved assignment induces from `routing.Start` to the end node:
while the current index is not the end, append its node to `indexes` and add
the arc cost to the next index to `route_distance`.  Result: the emitted
index list and the accumulated route distance. -/
def print_solution (m : List (List ℕ)) : List ℕ → List ℕ × ℕ
  | [] => ([], 0)
  | [_] => ([], 0)
  | a :: b :: rest =>
    let r := print_solution m (b :: rest)
    (a :: r.1, matEntry m a b + r.2)

/-- The dropped-nodes computation of `main` (cvrp.py line 118):
`set(range(len(distance_matrix))) - set(solution)`, as the list of node
indices of the universe absent from the emitted sequence. -/
def droppedNodes (n : ℕ) (ix : List ℕ) : List ℕ :=
  (List.range n).filter (fun d => decide (d ∉ ix))

/-- Pair two optional coordinates into an optional point: defined exactly
when both coordinates are. -/
def combineOpt (x y : Option ℚ) : Option (ℚ × ℚ) :=
  match x, y with
  | some a, some b => some (a, b)
  | _, _ => none

/-- Modelled from the spec: the literal reading of "startpos is the first
defined 2D coordinate (x, y pair) encountered when scanning its motion
primitives forward" — the coordinate pair of the first line whose x and y
are both defined.  Compared below against the scan the code performs. -/
def startposSpec (s : Segment) : Option (ℚ × ℚ) :=
  (s.lines.find? (fun l => l.x.isSome && l.y.isSome)).bind
    (fun l => combineOpt l.x l.y)

/-- The combination the code actually computes: the first defined x paired
with the first defined y, each found independently while scanning. -/
def combinedFirstCoords (lines : List GLine) : Option (ℚ × ℚ) :=
  combineOpt (lines.findSome? GLine.x) (lines.findSome? GLine.y)

/-- First gcode part of the running concrete example: a single line at
(0, 0). -/
def demoPart0 : List GLine := [⟨some 0, some 0⟩]

/-- Second gcode part of the running concrete example: a single line at
(3, 4), at Euclidean distance 5 from the first part. -/
def demoPart1 : List GLine := [⟨some 3, some 4⟩]

/-- The running concrete input: two nondegenerate parts, yielding four
oriented nodes. -/
def demoParts : List (List GLine) := [demoPart0, demoPart1]

/-- A degenerate part: an x coordinate but never a y. -/
def demoBadX : List GLine := [⟨some 1, none⟩]

/-- Another degenerate part: a y coordinate but never an x. -/
def demoBadY : List GLine := [⟨none, some 2⟩]

/-- A segment whose first line defines only x and whose second line defines
both coordinates: the scanned startpos mixes the two lines. -/
def demoMixed : Segment :=
  ⟨[⟨some 1, none⟩, ⟨some 5, some 2⟩]⟩

theorem distSq_nonneg (a b : ℚ × ℚ) : 0 ≤ distSq a b := by
  have h1 : (0 : ℚ) ≤ (a.1 - b.1) ^ 2 := sq_nonneg _
  have h2 : (0 : ℚ) ≤ (a.2 - b.2) ^ 2 := sq_nonneg _
  unfold distSq
  linarith

theorem distSq_self (a : ℚ × ℚ) : distSq a a = 0 := by
  simp [distSq]

theorem ratSqrtFloor_natCast (n : ℕ) : ratSqrtFloor (n : ℚ) = Nat.sqrt n := by
  simp [ratSqrtFloor]

/-- Certification of `ratSqrtFloor` against the specification's
`floor(sqrt(...))`: on nonnegative rationals it is the natural floor of the
real square root. -/
theorem ratSqrtFloor_eq_floor_sqrt (q : ℚ) (hq : 0 ≤ q) :
    ratSqrtFloor q = ⌊Real.sqrt (q : ℝ)⌋₊ := by
  have hnum : ((q.num.toNat : ℤ)) = q.num :=
    Int.toNat_of_nonneg (Rat.num_nonneg.mpr hq)
  have hden : (0 : ℝ) < (q.den : ℝ) := by
    exact_mod_cast q.pos
  have hcast : (q : ℝ) = (q.num.toNat : ℝ) / (q.den : ℝ) := by
    rw [Rat.cast_def]
    congr 1
    exact_mod_cast hnum.symm
  have hdiv : (q : ℝ) = ((q.num.toNat * q.den : ℕ) : ℝ) / ((q.den : ℝ) ^ 2) := by
    rw [hcast]
    push_cast
    field_simp
    ring
  have hsqrt : Real.sqrt (q : ℝ)
      = Real.sqrt ((q.num.toNat * q.den : ℕ) : ℝ) / (q.den : ℝ) := by
    rw [hdiv, Real.sqrt_div (by positivity), Real.sqrt_sq hden.le]
  rw [hsqrt, Nat.floor_div_nat, Real.nat_floor_real_sqrt_eq_nat_sqrt, ratSqrtFloor]

theorem intDistance_self (a : ℚ × ℚ) : intDistance a a = 0 := by
  rw [intDistance, distSq_self]
  have h := ratSqrtFloor_natCast 0
  simpa using h

theorem segments_pos_isSome (parts : List (List GLine)) :
    ∀ o ∈ segments parts, o.startpos.isSome ∧ o.endpos.isSome := by
  induction parts with
  | nil => simp [segments]
  | cons p ps ih =>
    intro o ho
    by_cases h : (Segment.mk p).startpos.isSome && (Segment.mk p).endpos.isSome
    · rw [segments, if_pos h] at ho
      rcases Bool.and_eq_true_iff.mp h with ⟨h1, h2⟩
      simp only [List.mem_cons] at ho
      rcases ho with ho | ho | ho
      · subst ho; exact ⟨h1, h2⟩
      · subst ho; exact ⟨h2, h1⟩
      · exact ih o ho
    · rw [segments, if_neg h] at ho
      exact ih o ho

theorem distance_matrix_length (segs : List Node) :
    (distance_matrix segs).length = segs.length := by
  simp [distance_matrix]

theorem matEntry_distance_matrix (segs : List Node) (i j : ℕ)
    (hi : i < segs.length) (hj : j < segs.length) :
    matEntry (distance_matrix segs) i j =
      if i = j then 0
      else intDistance (segs.getD i default).endpos (segs.getD j default).startpos := by
  have hi' : i < (distance_matrix segs).length := by
    rwa [distance_matrix_length]
  have hrow : (distance_matrix segs).getD i [] = (distance_matrix segs)[i] :=
    List.getD_eq_getElem _ _ hi'
  have hie : i < segs.enum.length := by simpa using hi
  have hje : j < segs.enum.length := by simpa using hj
  have hrow2 : (distance_matrix segs)[i]
      = segs.enum.map (fun ts =>
          if (segs.enum[i]).1 = ts.1 then 0
          else intDistance (segs.enum[i]).2.endpos ts.2.startpos) := by
    simp [distance_matrix]
  have hj' : j < ((distance_matrix segs)[i]).length := by
    rw [hrow2]; simpa using hj
  have hcell : ((distance_matrix segs)[i]).getD j 0 = ((distance_matrix segs)[i])[j] :=
    List.getD_eq_getElem _ _ hj'
  rw [matEntry, hrow, hcell]
  have hval : ((distance_matrix segs)[i])[j]
      = (if (segs.enum[i]).1 = (segs.enum[j]).1 then 0
          else intDistance (segs.enum[i]).2.endpos (segs.enum[j]).2.startpos) := by
    simp [hrow2]
  rw [hval, List.getElem_enum, List.getElem_enum]
  have hgi : segs[i] = segs.getD i default := (List.getD_eq_getElem segs default hi).symm
  have hgj : segs[j] = segs.getD j default := (List.getD_eq_getElem segs default hj).symm
  rw [hgi, hgj]

theorem pair_mem_disjunctions {n k : ℕ} (h : 2 * k < n) :
    [2 * k, 2 * k + 1] ∈ disjunctions n := by
  apply List.mem_map.mpr
  refine ⟨2 * k, List.mem_filter.mpr ⟨List.mem_range.mpr h, ?_⟩, rfl⟩
  simp [Nat.mul_mod_right]

theorem segments_twin (parts : List (List GLine)) :
    ∀ k, 2 * k + 1 < (segments parts).length →
      ∃ s : Segment,
        (segments parts).getD (2 * k) default = .fwd s ∧
        (segments parts).getD (2 * k + 1) default = .rev s := by
  induction parts with
  | nil => intro k hk; simp [segments] at hk
  | cons p ps ih =>
    intro k hk
    by_cases h : (Segment.mk p).startpos.isSome && (Segment.mk p).endpos.isSome
    · rw [segments, if_pos h] at hk ⊢
      cases k with
      | zero => exact ⟨⟨p⟩, rfl, rfl⟩
      | succ k' =>
        have hk' : 2 * k' + 1 < (segments ps).length := by
          simp only [List.length_cons] at hk
          omega
        obtain ⟨s, h1, h2⟩ := ih k' hk'
        have e1 : 2 * (k' + 1) = 2 * k' + 1 + 1 := by ring
        have e2 : 2 * (k' + 1) + 1 = 2 * k' + 1 + 1 + 1 := by ring
        refine ⟨s, ?_, ?_⟩
        · rw [e1, List.getD_cons_succ, List.getD_cons_succ]
          exact h1
        · rw [e2, List.getD_cons_succ, List.getD_cons_succ]
          exact h2
    · rw [segments, if_neg h] at hk ⊢
      exact ih k hk

theorem nodes_length (parts : List (List GLine)) :
    (nodes parts).length = (segments parts).length := by
  simp [nodes]

theorem nodes_getD (parts : List (List GLine)) (i : ℕ)
    (hi : i < (segments parts).length) :
    (nodes parts).getD i default = Node.ofOriented ((segments parts).getD i default) := by
  have hi' : i < (nodes parts).length := by rwa [nodes_length]
  rw [List.getD_eq_getElem _ _ hi', List.getD_eq_getElem _ _ hi]
  simp [nodes]

theorem print_solution_fst (m : List (List ℕ)) :
    ∀ walk : List ℕ, (print_solution m walk).1 = walk.dropLast
  | [] => rfl
  | [_] => rfl
  | a :: b :: rest => by
    have ih := print_solution_fst m (b :: rest)
    simp [print_solution, ih]

theorem print_solution_snd (m : List (List ℕ)) :
    ∀ walk : List ℕ,
      (print_solution m walk).2
        = ((walk.zip walk.tail).map (fun p => matEntry m p.1 p.2)).sum
  | [] => rfl
  | [_] => rfl
  | a :: b :: rest => by
    have ih := print_solution_snd m (b :: rest)
    simp [print_solution, ih]

theorem mem_droppedNodes (n : ℕ) (ix : List ℕ) (d : ℕ) :
    d ∈ droppedNodes n ix ↔ d < n ∧ d ∉ ix := by
  simp [droppedNodes, List.mem_filter, List.mem_range, and_comm]

theorem scanPos_eq (lines : List GLine) :
    ∀ x y : Option ℚ, ¬(x.isSome = true ∧ y.isSome = true) →
      scanPos x y lines
        = combineOpt (if x.isSome then x else lines.findSome? GLine.x)
            (if y.isSome then y else lines.findSome? GLine.y) := by
  induction lines with
  | nil =>
    intro x y h
    rcases x with _ | a <;> rcases y with _ | b <;>
      simp [scanPos, combineOpt, List.findSome?_nil] at h ⊢
  | cons l ls ih =>
    intro x y h
    rcases x with _ | a <;> rcases y with _ | b
    · rcases hx : l.x with _ | a' <;> rcases hy : l.y with _ | b'
      · rw [show scanPos none none (l :: ls) = scanPos l.x l.y ls by
          rw [scanPos]; rw [hx, hy]; rfl]
        rw [hx, hy, ih none none (by simp)]
        simp [List.findSome?_cons, hx, hy]
      · rw [show scanPos none none (l :: ls) = scanPos l.x l.y ls by
          rw [scanPos]; rw [hx, hy]; rfl]
        rw [hx, hy, ih none (some b') (by simp)]
        simp [List.findSome?_cons, hx, hy]
      · rw [show scanPos none none (l :: ls) = scanPos l.x l.y ls by
          rw [scanPos]; rw [hx, hy]; rfl]
        rw [hx, hy, ih (some a') none (by simp)]
        simp [List.findSome?_cons, hx, hy]
      · rw [show scanPos none none (l :: ls) = some (a', b') by
          rw [scanPos]; rw [hx, hy]; rfl]
        simp [combineOpt, List.findSome?_cons, hx, hy]
    · rcases hx : l.x with _ | a'
      · rw [show scanPos none (some b) (l :: ls) = scanPos l.x (some b) ls by
          rw [scanPos]; rw [hx]; rfl]
        rw [hx, ih none (some b) (by simp)]
        simp [List.findSome?_cons, hx]
      · rw [show scanPos none (some b) (l :: ls) = some (a', b) by
          rw [scanPos]; rw [hx]; rfl]
        simp [combineOpt, List.findSome?_cons, hx]
    · rcases hy : l.y with _ | b'
      · rw [show scanPos (some a) none (l :: ls) = scanPos (some a) l.y ls by
          rw [scanPos]; rw [hy]; rfl]
        rw [hy, ih (some a) none (by simp)]
        simp [List.findSome?_cons, hy]
      · rw [show scanPos (some a) none (l :: ls) = some (a, b') by
          rw [scanPos]; rw [hy]; rfl]
        simp [combineOpt, List.findSome?_cons, hy]
    · exact absurd ⟨rfl, rfl⟩ h

/-- C1: for every solved route — modelled as a node sequence satisfying
every disjunction registered by cvrp.py lines 94-95 — and every real
segment occupying the adjacent node indices 2k and 2k+1 of the universe,
the route contains at most one of {2k, 2k+1}: the registered constraint
makes including both infeasible. -/
theorem C1_pair_exclusivity (n : ℕ) (r : List ℕ) (k : ℕ) (hk : 2 * k < n)
    (hr : SatisfiesDisjunctions n r) : ¬(2 * k ∈ r ∧ 2 * k + 1 ∈ r) := by
  rintro ⟨h1, h2⟩
  have hd := hr _ (pair_mem_disjunctions hk)
  simp [List.countP_cons, h1, h2] at hd

/-- Witness for C1 at universe size 4, route [0, 2], pair index k = 1. -/
theorem C1_pair_exclusivity_witness :
    2 * 1 < 4 ∧ SatisfiesDisjunctions 4 [0, 2] ∧
      ¬(2 * 1 ∈ ([0, 2] : List ℕ) ∧ 2 * 1 + 1 ∈ ([0, 2] : List ℕ)) :=
  ⟨by decide, by decide, C1_pair_exclusivity 4 [0, 2] 1 (by decide) (by decide)⟩

/-- C2: for every node sequence, entry (i, j) of the matrix built by
create_data_model is floor (sqrt ((endpos_i.x - startpos_j.x)^2 +
(endpos_i.y - startpos_j.y)^2)) for i different from j, and 0 on the
diagonal. -/
theorem C2_distance_matrix_formula (segs : List Node) (i j : ℕ)
    (hi : i < segs.length) (hj : j < segs.length) :
    matEntry (distance_matrix segs) i j =
      if i = j then 0
      else ⌊Real.sqrt
        ((((segs.getD i default).endpos.1 - (segs.getD j default).startpos.1 : ℚ) : ℝ) ^ 2
          + (((segs.getD i default).endpos.2 - (segs.getD j default).startpos.2 : ℚ) : ℝ) ^ 2)⌋₊ := by
  rw [matEntry_distance_matrix segs i j hi hj]
  by_cases h : i = j
  · rw [if_pos h, if_pos h]
  · rw [if_neg h, if_neg h, intDistance,
      ratSqrtFloor_eq_floor_sqrt _ (distSq_nonneg _ _)]
    congr 1
    congr 1
    push_cast [distSq]
    ring

/-- Witness for C2 on the four-node demo instance at entry (0, 2). -/
theorem C2_distance_matrix_formula_witness :
    0 < (nodes demoParts).length ∧ 2 < (nodes demoParts).length ∧
    matEntry (distance_matrix (nodes demoParts)) 0 2 =
      (if 0 = 2 then 0
       else ⌊Real.sqrt
        (((((nodes demoParts).getD 0 default).endpos.1
            - ((nodes demoParts).getD 2 default).startpos.1 : ℚ) : ℝ) ^ 2
          + ((((nodes demoParts).getD 0 default).endpos.2
            - ((nodes demoParts).getD 2 default).startpos.2 : ℚ) : ℝ) ^ 2)⌋₊) :=
  ⟨by decide, by decide,
    C2_distance_matrix_formula (nodes demoParts) 0 2 (by decide) (by decide)⟩

/-- C3 counterexample: in the code there is no synthetic depot node.  On the
demo input, node 0 is the forward orientation of the first real segment of
the input, and the transit cost out of node 0 into node 2 is 5, not 0. -/
theorem C3_counterexample :
    (create_data_model (nodes demoParts)).depot = 0 ∧
    (segments demoParts).getD 0 default = .fwd ⟨demoPart0⟩ ∧
    matEntry (distance_matrix (nodes demoParts)) 0 2 = 5 ∧
    matEntry (distance_matrix (nodes demoParts)) 0 2 ≠ 0 := by
  have hent : matEntry (distance_matrix (nodes demoParts)) 0 2 = 5 := by
    rw [matEntry_distance_matrix (nodes demoParts) 0 2 (by decide) (by decide),
      if_neg (by decide)]
    have hg0 : ((nodes demoParts).getD 0 default).endpos = ((0 : ℚ), (0 : ℚ)) := by
      decide
    have hg2 : ((nodes demoParts).getD 2 default).startpos = ((3 : ℚ), (4 : ℚ)) := by
      decide
    rw [hg0, hg2, intDistance]
    have hd : distSq ((0 : ℚ), (0 : ℚ)) ((3 : ℚ), (4 : ℚ)) = ((25 : ℕ) : ℚ) := by
      norm_num [distSq]
    rw [hd, ratSqrtFloor_natCast]
    rw [show (25 : ℕ) = 5 * 5 from by norm_num, Nat.sqrt_eq]
  exact ⟨by decide, by decide, hent, by rw [hent]; decide⟩

/-- C3 (amended): node 0 is the depot (create_data_model fixes depot = 0),
but it is the forward orientation of the first nondegenerate segment of the
input, not a synthetic anchor; only its diagonal transit cost (0, 0) is
guaranteed zero, the other costs into and out of node 0 being ordinary
truncated Euclidean distances. -/
theorem C3_amended_depot (p : List GLine) (ps : List (List GLine))
    (h1 : (Segment.mk p).startpos.isSome = true)
    (h2 : (Segment.mk p).endpos.isSome = true) :
    (create_data_model (nodes (p :: ps))).depot = 0 ∧
    (segments (p :: ps)).getD 0 default = .fwd ⟨p⟩ ∧
    matEntry (distance_matrix (nodes (p :: ps))) 0 0 = 0 := by
  have hseg : segments (p :: ps) = .fwd ⟨p⟩ :: .rev ⟨p⟩ :: segments ps := by
    rw [segments, if_pos (by rw [h1, h2]; rfl)]
  have hlen : 0 < (nodes (p :: ps)).length := by
    rw [nodes_length, hseg]
    simp
  refine ⟨rfl, ?_, ?_⟩
  · rw [hseg]; rfl
  · rw [matEntry_distance_matrix _ 0 0 hlen hlen, if_pos rfl]

/-- Witness for the amended C3 on the demo input. -/
theorem C3_amended_depot_witness :
    (Segment.mk demoPart0).startpos.isSome = true ∧
    (Segment.mk demoPart0).endpos.isSome = true ∧
    (create_data_model (nodes (demoPart0 :: [demoPart1]))).depot = 0 :=
  ⟨by decide, by decide,
    (C3_amended_depot demoPart0 [demoPart1] (by decide) (by decide)).1⟩

/-- C4 counterexample: a route omitting both members of the pair (2, 3)
violates the registered disjunctions — the AddDisjunction call of cvrp.py
line 95 passes no penalty argument, so omission of a whole pair is
infeasible rather than penalised. -/
theorem C4_counterexample :
    (2 : ℕ) ∉ ([0] : List ℕ) ∧ (3 : ℕ) ∉ ([0] : List ℕ) ∧
    ¬ SatisfiesDisjunctions 4 [0] :=
  ⟨by decide, by decide, by decide⟩

/-- C4 (amended): each pair's disjunction is registered without a drop
penalty and is therefore mandatory: every solved route includes at least
one (hence, with C1, exactly one) member of every pair {2k, 2k+1}; dropping
both members of a pair is not available to the solver. -/
theorem C4_amended_mandatory (n : ℕ) (r : List ℕ) (k : ℕ) (hk : 2 * k < n)
    (hr : SatisfiesDisjunctions n r) : 2 * k ∈ r ∨ 2 * k + 1 ∈ r := by
  by_contra hcon
  push_neg at hcon
  have hd := hr _ (pair_mem_disjunctions hk)
  simp [List.countP_cons, hcon.1, hcon.2] at hd

/-- Witness for the amended C4 at universe size 4, route [0, 2], k = 1. -/
theorem C4_amended_mandatory_witness :
    2 * 1 < 4 ∧ SatisfiesDisjunctions 4 [0, 2] ∧
      (2 * 1 ∈ ([0, 2] : List ℕ) ∨ 2 * 1 + 1 ∈ ([0, 2] : List ℕ)) :=
  ⟨by decide, by decide, C4_amended_mandatory 4 [0, 2] 1 (by decide) (by decide)⟩

/-- C5 counterexample: on the four-node demo instance the initial route is
[1, 2, 3], and the corresponding depot-rooted route 0 :: [1, 2, 3] violates
the registered pair disjunctions (it contains both 2 and 3, twins of one
segment, and both 0 and 1): the seed route is not feasible. -/
theorem C5_counterexample :
    (create_data_model (nodes demoParts)).initial_routes = [[1, 2, 3]] ∧
    ¬ SatisfiesDisjunctions
        ((create_data_model (nodes demoParts)).distance_matrix.length)
        (0 :: [1, 2, 3]) :=
  ⟨by decide, by decide⟩

/-- C5 (amended): the initial route supplied to the solver visits, after
the depot, every non-depot node exactly once in ascending index order
(nodes 1 through N-1); but it is not feasible under the registered pair
disjunctions — with at least two real segments it contains both members of
pair (2, 3). -/
theorem C5_amended_initial_route (segs : List Node) (h4 : 4 ≤ segs.length) :
    (create_data_model segs).initial_routes = [List.range' 1 (segs.length - 1)] ∧
    (List.range' 1 (segs.length - 1)).Nodup ∧
    (∀ i, i ∈ List.range' 1 (segs.length - 1) ↔ 1 ≤ i ∧ i < segs.length) ∧
    ¬ SatisfiesDisjunctions segs.length (0 :: List.range' 1 (segs.length - 1)) := by
  refine ⟨?_, List.nodup_range' 1 (segs.length - 1), ?_, ?_⟩
  · show [List.range' 1 ((distance_matrix segs).length - 1)] = _
    rw [distance_matrix_length]
  · intro i
    rw [List.mem_range'_1]
    omega
  · intro hsat
    have hmem : [2, 3] ∈ disjunctions segs.length := by
      have h := @pair_mem_disjunctions segs.length 1 (by omega)
      norm_num at h
      exact h
    have hd := hsat _ hmem
    have h2 : (2 : ℕ) ∈ 0 :: List.range' 1 (segs.length - 1) := by
      simp [List.mem_range'_1]
      omega
    have h3 : (3 : ℕ) ∈ 0 :: List.range' 1 (segs.length - 1) := by
      simp [List.mem_range'_1]
      omega
    have d2 := decide_eq_true h2
    have d3 := decide_eq_true h3
    simp only [List.countP_cons, List.countP_nil, d2, d3, if_true] at hd
    omega

/-- Witness for the amended C5 on the four-node demo instance. -/
theorem C5_amended_initial_route_witness :
    4 ≤ (nodes demoParts).length ∧
    ¬ SatisfiesDisjunctions (nodes demoParts).length
        (0 :: List.range' 1 ((nodes demoParts).length - 1)) :=
  ⟨by decide, (C5_amended_initial_route (nodes demoParts) (by decide)).2.2.2⟩

/-- C6 counterexample: walking the solved route 0 → 2 → 0 of the demo
instance, print_solution emits [0, 2]: the depot index 0 is part of the
emitted sequence, contradicting the claim that only non-depot indices are
emitted. -/
theorem C6_counterexample :
    (print_solution (distance_matrix (nodes demoParts)) [0, 2, 0]).1 = [0, 2] ∧
    (0 : ℕ) ∈ (print_solution (distance_matrix (nodes demoParts)) [0, 2, 0]).1 :=
  ⟨by decide, by decide⟩

/-- C6 (amended): the extractor emits every visited node of the walk in
route order including the depot at the head — only the final return to the
depot is not emitted (the walk minus its last element) — and the reported
dropped-node set is exactly the universe {0..N-1} minus the emitted
indices. -/
theorem C6_amended_extractor (m : List (List ℕ)) (walk : List ℕ) (n d : ℕ) :
    (print_solution m walk).1 = walk.dropLast ∧
    (d ∈ droppedNodes n (print_solution m walk).1 ↔
      d < n ∧ d ∉ (print_solution m walk).1) :=
  ⟨print_solution_fst m walk, mem_droppedNodes n _ d⟩

/-- C7: for every matrix and every solved walk, the total route distance
accumulated by print_solution equals the sum of the distance-matrix entries
of the consecutive node pairs along the walk. -/
theorem C7_route_distance_sum (m : List (List ℕ)) (walk : List ℕ) :
    (print_solution m walk).2
      = ((walk.zip walk.tail).map (fun p => matEntry m p.1 p.2)).sum :=
  print_solution_snd m walk

/-- C8 counterexample: two inputs whose degenerate-segment counts differ
(one versus two degenerate parts) produce identical `segments` outputs —
the whole caller-visible result of the module — so no count of excluded
degenerate segments is surfaced to the caller. -/
theorem C8_counterexample :
    segments [demoPart0, demoBadX] = segments [demoPart0, demoBadX, demoBadY] ∧
    ([demoPart0, demoBadX] : List (List GLine)).countP
      (fun p => !((Segment.mk p).startpos.isSome && (Segment.mk p).endpos.isSome)) = 1 ∧
    ([demoPart0, demoBadX, demoBadY] : List (List GLine)).countP
      (fun p => !((Segment.mk p).startpos.isSome && (Segment.mk p).endpos.isSome)) = 2 :=
  ⟨by decide, by decide, by decide⟩

/-- C8 (amended): every segment with an undefined startpos or endpos is
excluded from the node universe before the matrix is built — filtering the
degenerate parts away does not change the output, and each kept part
contributes exactly two oriented nodes — but no count of the excluded
segments is surfaced. -/
theorem C8_amended_exclusion (parts : List (List GLine)) :
    segments (parts.filter
      (fun p => (Segment.mk p).startpos.isSome && (Segment.mk p).endpos.isSome))
      = segments parts ∧
    (segments parts).length
      = 2 * parts.countP
          (fun p => (Segment.mk p).startpos.isSome && (Segment.mk p).endpos.isSome) := by
  induction parts with
  | nil => exact ⟨rfl, rfl⟩
  | cons p ps ih =>
    by_cases h : ((Segment.mk p).startpos.isSome && (Segment.mk p).endpos.isSome) = true
    · have hf : List.filter
          (fun q => (Segment.mk q).startpos.isSome && (Segment.mk q).endpos.isSome)
          (p :: ps)
          = p :: List.filter
            (fun q => (Segment.mk q).startpos.isSome && (Segment.mk q).endpos.isSome)
            ps :=
        List.filter_cons_of_pos h
      have hc : List.countP
          (fun q => (Segment.mk q).startpos.isSome && (Segment.mk q).endpos.isSome)
          (p :: ps)
          = List.countP
            (fun q => (Segment.mk q).startpos.isSome && (Segment.mk q).endpos.isSome)
            ps + 1 := by
        simp only [List.countP_cons]
        rw [if_pos h]
      constructor
      · conv_rhs => rw [segments, if_pos h]
        rw [hf, segments, if_pos h, ih.1]
      · rw [segments, if_pos h, hc]
        simp only [List.length_cons]
        rw [ih.2]
        omega
    · have hf : List.filter
          (fun q => (Segment.mk q).startpos.isSome && (Segment.mk q).endpos.isSome)
          (p :: ps)
          = List.filter
            (fun q => (Segment.mk q).startpos.isSome && (Segment.mk q).endpos.isSome)
            ps :=
        List.filter_cons_of_neg h
      have hc : List.countP
          (fun q => (Segment.mk q).startpos.isSome && (Segment.mk q).endpos.isSome)
          (p :: ps)
          = List.countP
            (fun q => (Segment.mk q).startpos.isSome && (Segment.mk q).endpos.isSome)
            ps := by
        simp only [List.countP_cons]
        rw [if_neg h]
        omega
      constructor
      · conv_rhs => rw [segments, if_neg h]
        rw [hf, ih.1]
      · rw [segments, if_neg h, hc, ih.2]

/-- C9 counterexample: for a segment whose first line defines only x and
whose second line defines both coordinates, the code's startpos pairs the
first line's x with the second line's y, (1, 2), while the first defined
(x, y) pair encountered scanning forward is the second line's (5, 2): the
two readings disagree. -/
theorem C9_counterexample :
    Segment.startpos demoMixed = some (1, 2) ∧
    startposSpec demoMixed = some (5, 2) ∧
    Segment.startpos demoMixed ≠ startposSpec demoMixed :=
  ⟨by decide, by decide, by decide⟩

/-- C9 (amended): startpos pairs the first defined x coordinate with the
first defined y coordinate found while scanning the motion primitives
forward — possibly taken from different primitives — and is undefined when
either is never found; endpos is the same combination over the reversed
line list. -/
theorem C9_amended_scan (s : Segment) :
    s.startpos = combinedFirstCoords s.lines ∧
    s.endpos = combinedFirstCoords s.lines.reverse := by
  constructor
  · rw [Segment.startpos, scanPos_eq s.lines none none (by simp)]
    rfl
  · rw [Segment.endpos, scanPos_eq s.lines.reverse none none (by simp)]
    rfl

/-- C10: for every input and every real segment occupying node indices 2k
(forward) and 2k+1 (reverse), the distance-matrix entries between the twins
are zero in both directions, although the two indices are distinct — zero
transit cost is not confined to the diagonal.  This holds because the
reverse orientation's startpos is the forward orientation's endpos and vice
versa. -/
theorem C10_twin_transit_zero (parts : List (List GLine)) (k : ℕ)
    (hk : 2 * k + 1 < (nodes parts).length) :
    2 * k ≠ 2 * k + 1 ∧
    matEntry (distance_matrix (nodes parts)) (2 * k) (2 * k + 1) = 0 ∧
    matEntry (distance_matrix (nodes parts)) (2 * k + 1) (2 * k) = 0 := by
  have hkseg : 2 * k + 1 < (segments parts).length := by
    rwa [nodes_length] at hk
  obtain ⟨s, h1, h2⟩ := segments_twin parts k hkseg
  have hk0 : 2 * k < (nodes parts).length := by omega
  have hg1 : (nodes parts).getD (2 * k) default = Node.ofOriented (.fwd s) := by
    rw [nodes_getD parts _ (by omega), h1]
  have hg2 : (nodes parts).getD (2 * k + 1) default = Node.ofOriented (.rev s) := by
    rw [nodes_getD parts _ hkseg, h2]
  refine ⟨by omega, ?_, ?_⟩
  · rw [matEntry_distance_matrix _ _ _ hk0 hk, if_neg (by omega), hg1, hg2]
    exact intDistance_self _
  · rw [matEntry_distance_matrix _ _ _ hk hk0, if_neg (by omega), hg2, hg1]
    exact intDistance_self _

/-- Witness for C10 on the demo input at pair k = 0. -/
theorem C10_twin_transit_zero_witness :
    2 * 0 + 1 < (nodes demoParts).length ∧
    matEntry (distance_matrix (nodes demoParts)) (2 * 0) (2 * 0 + 1) = 0 :=
  ⟨by decide, (C10_twin_transit_zero demoParts 0 (by decide)).2.1⟩

end Gcodeopt
